import Mathlib

/-!
A verification development for the valtio-persist persistence layer.

The development shallowly embeds the core of the library:
  * the JSON envelope serialization strategy
    (src/serialization/json/json.ts),
  * the shallow and deep merge strategies
    (src/merge/default.ts, src/merge/deepMerge.ts),
  * the store update helpers and the debounce combinator (src/utils.ts),
  * the persist queue (src/queue.ts),
  * the orchestrator operations persist / restore / clear and the
    subscription callback (src/index.ts),
  * the storage adapter error policy (src/storage/*).

JavaScript runtime values are modelled by the inductive type JSVal below.
Machine details that the library never depends on (float representation of
numbers, object reference identity, property insertion order beyond list
order) are modelled at the value level; each definition carries a comment
pointing at the source code it embeds.
-/

namespace ValtioPersist

/-- A JavaScript runtime value, covering every shape the serialization and
merge strategies of the library distinguish.  Numbers are modelled as
integers (the library never computes with them), a Date by its ISO-8601
string, a Symbol by its optional description, a Function by its name, an
Error by its message, name and stack strings, a class instance by its
constructor name and its own enumerable properties, and a DOM element by
its tag name, id attribute and class list.  Objects and arrays carry their
entries as lists in property insertion order. -/
inductive JSVal where
  | str (s : String)
  | num (n : Int)
  | bool (b : Bool)
  | null
  | undef
  | date (iso : String)
  | jsmap (entries : List (JSVal × JSVal))
  | jsset (elems : List JSVal)
  | symbol (descr : Option String)
  | func (fname : String)
  | jserror (message ename stack : String)
  | weakmap
  | weakset
  | classInst (cname : String) (fields : List (String × JSVal))
  | domElement (tag : String) (idAttr : String) (classes : List String)
  | arr (elems : List JSVal)
  | obj (fields : List (String × JSVal))
deriving Repr

/-- The eight recognized type markers (TYPE_MARKER in src/types.ts). -/
def typeMarkers : List String :=
  ["__DATE__", "__MAP__", "__SET__", "__SYMBOL__", "__FUNCTION__",
   "__CLASS__", "__ERROR__", "__DOM_ELEMENT__"]

/-- Property access on an object: the value stored under the first
occurrence of the key, if any (JavaScript objects carry each key once). -/
def lookupField : List (String × JSVal) → String → Option JSVal
  | [], _ => none
  | (k, v) :: fs, target => if k = target then some v else lookupField fs target

/-- Property assignment on an object: replace the value at an existing key
in place, otherwise append the key at the end, exactly as a JavaScript
property write does. -/
def setField : List (String × JSVal) → String → JSVal → List (String × JSVal)
  | [], k, v => [(k, v)]
  | (k0, v0) :: fs, k, v =>
      if k0 = k then (k, v) :: fs else (k0, v0) :: setField fs k v

/-- Values whose typeof is "object" and that are not null.  The library
always tests typeof together with a null check, so the two are combined. -/
def isObjectType : JSVal → Bool
  | .null | .undef | .str _ | .num _ | .bool _ | .symbol _ | .func _ => false
  | _ => true

/-- JSON-representable primitives: strings, numbers, booleans and null. -/
def isPrimitive : JSVal → Bool
  | .str _ | .num _ | .bool _ | .null => true
  | _ => false

/-- Equality of primitive values (false whenever either side is not a
primitive).  This is SameValueZero restricted to primitives; object values
compare by reference in JavaScript and two separately parsed objects are
never identical, so object equality is modelled as false. -/
def beqPrim : JSVal → JSVal → Bool
  | .str a, .str b => a = b
  | .num a, .num b => a = b
  | .bool a, .bool b => a = b
  | .null, .null => true
  | _, _ => false

/-- JavaScript truthiness of a value. -/
def truthyVal : JSVal → Bool
  | .null | .undef => false
  | .bool b => b
  | .str s => s ≠ ""
  | .num n => n ≠ 0
  | _ => true

/-- Membership up to beqPrim. -/
def memPrim (x : JSVal) : List JSVal → Bool
  | [] => false
  | y :: ys => beqPrim x y || memPrim x ys

/-- All elements pairwise distinct up to beqPrim. -/
def distinctPrims : List JSVal → Bool
  | [] => true
  | x :: xs => (!memPrim x xs) && distinctPrims xs

/-! ### JSON envelope serialization
(JSONSerializationStrategy, src/serialization/json/json.ts) -/

/-- CSS selector built for a DOM element during serialization
(json.ts lines 103 to 114): the lowercased tag name, then the id if
present, else the class list joined with dots. -/
def domSelector (tag idAttr : String) (classes : List String) : String :=
  if idAttr ≠ "" then tag ++ "#" ++ idAttr
  else if classes ≠ [] then tag ++ "." ++ String.intercalate "." classes
  else tag

mutual
/-- processForSerialization (json.ts lines 28 to 141): wraps every special
value in a tagged envelope and recurses through arrays and plain objects.
Map and Set payloads and the shallow copy of a class instance are taken
raw, without recursive processing, exactly as in the source.  WeakMap and
WeakSet become null. -/
def processForSerialization : JSVal → JSVal
  | .null => .null
  | .undef => .undef
  | .str s => .str s
  | .num n => .num n
  | .bool b => .bool b
  | .symbol d =>
      .obj [("__type", .str "__SYMBOL__"),
            ("value", match d with | some s => .str s | none => .undef)]
  | .func fname =>
      .obj [("__type", .str "__FUNCTION__"),
            ("value", .str (if fname = "" then "anonymous" else fname))]
  | .date iso =>
      .obj [("__type", .str "__DATE__"), ("value", .str iso)]
  | .jsmap entries =>
      .obj [("__type", .str "__MAP__"),
            ("value", .arr (entries.map (fun e => .arr [e.1, e.2])))]
  | .jsset elems =>
      .obj [("__type", .str "__SET__"), ("value", .arr elems)]
  | .weakmap => .null
  | .weakset => .null
  | .jserror m nm st =>
      .obj [("__type", .str "__ERROR__"),
            ("value", .obj [("message", .str m), ("name", .str nm),
                            ("stack", .str st)])]
  | .domElement tag idAttr classes =>
      .obj [("__type", .str "__DOM_ELEMENT__"),
            ("value", .str (domSelector tag idAttr classes))]
  | .classInst cname fields =>
      .obj [("__type", .str "__CLASS__"), ("className", .str cname),
            ("value", .obj fields)]
  | .arr es => .arr (processForSerializationList es)
  | .obj fs => .obj (processForSerializationFields fs)

/-- Element-wise serialization processing of an array. -/
def processForSerializationList : List JSVal → List JSVal
  | [] => []
  | v :: vs => processForSerialization v :: processForSerializationList vs

/-- Key-wise serialization processing of a plain object. -/
def processForSerializationFields :
    List (String × JSVal) → List (String × JSVal)
  | [] => []
  | (k, v) :: fs => (k, processForSerialization v) :: processForSerializationFields fs
end

mutual
/-- Composite semantics of JSON.stringify followed by JSON.parse on the
processed tree.  none models the stringify result undefined (top level
undefined, Symbol or Function), which JSON.parse cannot read back.  Inside
arrays such values become null, inside objects the key is dropped.  A raw
Date stringifies through its toJSON to its ISO string; Map, Set, WeakMap,
WeakSet, Error and DOM element instances expose no own enumerable
properties and stringify to the empty object; a raw class instance
stringifies through its own enumerable properties.  These raw cases arise
only for payloads the serializer left unprocessed (Map and Set entries,
class instance fields). -/
def jsonStringifyParse : JSVal → Option JSVal
  | .str s => some (.str s)
  | .num n => some (.num n)
  | .bool b => some (.bool b)
  | .null => some .null
  | .undef => none
  | .symbol _ => none
  | .func _ => none
  | .date iso => some (.str iso)
  | .jsmap _ => some (.obj [])
  | .jsset _ => some (.obj [])
  | .weakmap => some (.obj [])
  | .weakset => some (.obj [])
  | .jserror _ _ _ => some (.obj [])
  | .domElement _ _ _ => some (.obj [])
  | .classInst _ fields => some (.obj (jsonStringifyParseFields fields))
  | .arr es => some (.arr (jsonStringifyParseList es))
  | .obj fs => some (.obj (jsonStringifyParseFields fs))

/-- Array elements under stringify and parse: vanished values become null. -/
def jsonStringifyParseList : List JSVal → List JSVal
  | [] => []
  | v :: vs => (jsonStringifyParse v).getD .null :: jsonStringifyParseList vs

/-- Object fields under stringify and parse: vanished values are dropped. -/
def jsonStringifyParseFields :
    List (String × JSVal) → List (String × JSVal)
  | [] => []
  | (k, v) :: fs =>
      match jsonStringifyParse v with
      | some w => (k, w) :: jsonStringifyParseFields fs
      | none => jsonStringifyParseFields fs
end

/-- How the Map constructor reads one entry of its iterable argument: the
properties at 0 and 1.  A non object entry makes the Map constructor
throw; that case is modelled as none and is never produced by the
serializer, which always emits two element arrays. -/
def entryPair : JSVal → Option (JSVal × JSVal)
  | .arr l => some ((l.get? 0).getD .undef, (l.get? 1).getD .undef)
  | .obj fs => some ((lookupField fs "0").getD .undef,
                     (lookupField fs "1").getD .undef)
  | _ => none

/-- All entries of a Map payload, or none if any entry is malformed. -/
def entryPairs : List JSVal → Option (List (JSVal × JSVal))
  | [] => some []
  | e :: es =>
      match entryPair e, entryPairs es with
      | some p, some ps => some (p :: ps)
      | _, _ => none

/-- String-valued property of an error payload object, if present. -/
def errorStringField (v : JSVal) (k : String) : Option String :=
  match v with
  | .obj fs =>
      match lookupField fs k with
      | some (.str s) => some s
      | _ => none
  | _ => none

/-- The switch on __type in processForDeserialization (json.ts lines 158
to 235).  Recognized markers rebuild the special value from the value
field; a guard failure falls through to the final return null.  The
reconstructed Map and Set keep their entry lists as parsed; the Map and
Set constructors would deduplicate keys, which is the identity on the
duplicate free payloads produced from real Maps and Sets.  The Function
marker yields the inert anonymous no-op function.  For the Error marker a
missing message defaults to "Unknown error"; a missing name or stack
leaves the fresh Error object defaults, modelled as "Error" and the empty
string.  The DOM element marker performs a document.querySelector in a
browser; modelled here is the path where document is undefined (or the
lookup misses), returning null.  The Class marker returns the raw value
object unprocessed.  An unrecognized string marker returns the raw value
field (undefined when absent). -/
def processEnvelope (t : String) (fs : List (String × JSVal)) : JSVal :=
  if t = "__DATE__" then
    match lookupField fs "value" with
    | some (.str s) => .date s
    | _ => .null
  else if t = "__MAP__" then
    match lookupField fs "value" with
    | some (.arr es) =>
        match entryPairs es with
        | some ps => .jsmap ps
        | none => .null
    | _ => .null
  else if t = "__SET__" then
    match lookupField fs "value" with
    | some (.arr es) => .jsset es
    | _ => .null
  else if t = "__SYMBOL__" then
    match lookupField fs "value" with
    | some (.str s) => .symbol (some s)
    | some .undef => .symbol none
    | none => .symbol none
    | _ => .null
  else if t = "__FUNCTION__" then .func ""
  else if t = "__ERROR__" then
    match lookupField fs "value" with
    | some v =>
        if isObjectType v then
          .jserror ((errorStringField v "message").getD "Unknown error")
                   ((errorStringField v "name").getD "Error")
                   ((errorStringField v "stack").getD "")
        else .null
    | none => .null
  else if t = "__DOM_ELEMENT__" then .null
  else if t = "__CLASS__" then
    match lookupField fs "value" with
    | some v => if isObjectType v then v else .null
    | none => .null
  else (lookupField fs "value").getD .undef

mutual
/-- processForDeserialization (json.ts lines 143 to 248): null, undefined
and non object values pass through unchanged; an object with a string
valued __type property goes through the envelope switch; other arrays and
objects are processed element wise and key wise.  The constructors that
JSON.parse can never produce (Date, Map, Set, Error, WeakMap, WeakSet, DOM
element, class instance) are included for totality: as objects without a
string __type own property they would take the plain object branch, whose
Object.entries sees no own enumerable properties on them except on a class
instance. -/
def processForDeserialization : JSVal → JSVal
  | .null => .null
  | .undef => .undef
  | .str s => .str s
  | .num n => .num n
  | .bool b => .bool b
  | .symbol d => .symbol d
  | .func fname => .func fname
  | .date _ => .obj []
  | .jsmap _ => .obj []
  | .jsset _ => .obj []
  | .weakmap => .obj []
  | .weakset => .obj []
  | .jserror _ _ _ => .obj []
  | .domElement _ _ _ => .obj []
  | .classInst _ fields => .obj (processForDeserializationFields fields)
  | .arr es => .arr (processForDeserializationList es)
  | .obj fs =>
      match lookupField fs "__type" with
      | some (.str t) => processEnvelope t fs
      | _ => .obj (processForDeserializationFields fs)

/-- Element-wise deserialization processing of an array. -/
def processForDeserializationList : List JSVal → List JSVal
  | [] => []
  | v :: vs => processForDeserialization v :: processForDeserializationList vs

/-- Key-wise deserialization processing of a plain object. -/
def processForDeserializationFields :
    List (String × JSVal) → List (String × JSVal)
  | [] => []
  | (k, v) :: fs =>
      (k, processForDeserialization v) :: processForDeserializationFields fs
end

/-- deserialize (serialize v) for the default JSON strategy: serialize is
JSON.stringify after processForSerialization, deserialize is
processForDeserialization after JSON.parse; stringify and parse are
mutually inverse between JSON text and JSON trees, so their composite is
jsonStringifyParse.  none models the case where JSON.stringify returned
undefined, making JSON.parse throw. -/
def roundTrip (v : JSVal) : Option JSVal :=
  (jsonStringifyParse (processForSerialization v)).map processForDeserialization

mutual
/-- The image a value is documented to round trip to: Functions come back
as the inert anonymous no-op function, WeakMap and WeakSet are dropped to
null, everything else is preserved (recursing through arrays and plain
objects). -/
def lossyImage : JSVal → JSVal
  | .str s => .str s
  | .num n => .num n
  | .bool b => .bool b
  | .null => .null
  | .undef => .undef
  | .date iso => .date iso
  | .jsmap entries => .jsmap entries
  | .jsset elems => .jsset elems
  | .symbol d => .symbol d
  | .func _ => .func ""
  | .jserror m nm st => .jserror m nm st
  | .weakmap => .null
  | .weakset => .null
  | .classInst cname fields => .classInst cname fields
  | .domElement tag idAttr classes => .domElement tag idAttr classes
  | .arr es => .arr (lossyImageList es)
  | .obj fs => .obj (lossyImageFields fs)

/-- Element-wise lossy image of an array. -/
def lossyImageList : List JSVal → List JSVal
  | [] => []
  | v :: vs => lossyImage v :: lossyImageList vs

/-- Key-wise lossy image of a plain object. -/
def lossyImageFields : List (String × JSVal) → List (String × JSVal)
  | [] => []
  | (k, v) :: fs => (k, lossyImage v) :: lossyImageFields fs
end

mutual
/-- The fragment of values on which the default JSON strategy is faithful
up to the documented lossy cases: primitives except undefined, Dates,
Symbols, Functions, Errors, WeakMap and WeakSet, Maps and Sets whose
entries are distinct primitives, and arrays and plain objects of faithful
values whose keys avoid the reserved __type key.  Class instances and DOM
elements are excluded: a class instance deserializes to a plain object and
its fields are serialized raw, and DOM reconstruction depends on the
document. -/
def faithful : JSVal → Bool
  | .str _ => true
  | .num _ => true
  | .bool _ => true
  | .null => true
  | .undef => false
  | .date _ => true
  | .jsmap entries =>
      entries.all (fun e => isPrimitive e.1 && isPrimitive e.2) &&
        distinctPrims (entries.map Prod.fst)
  | .jsset elems => elems.all isPrimitive && distinctPrims elems
  | .symbol _ => true
  | .func _ => true
  | .jserror _ _ _ => true
  | .weakmap => true
  | .weakset => true
  | .classInst _ _ => false
  | .domElement _ _ _ => false
  | .arr es => faithfulList es
  | .obj fs => faithfulFields fs

/-- All elements faithful. -/
def faithfulList : List JSVal → Bool
  | [] => true
  | v :: vs => faithful v && faithfulList vs

/-- All field values faithful and no key equal to __type. -/
def faithfulFields : List (String × JSVal) → Bool
  | [] => true
  | (k, v) :: fs => (k != "__type") && faithful v && faithfulFields fs
end

/-! ### Merge strategies
(DefaultMergeStrategy, src/merge/default.ts; DeepMergeStrategy,
src/merge/deepMerge.ts) -/

/-- Object spread: the fields of a spread of two objects, later keys
winning, position at first occurrence, as in a JavaScript object literal
with two spreads of duplicate free objects. -/
def spreadPair (a b : List (String × JSVal)) : List (String × JSVal) :=
  b.foldl (fun acc e => setField acc e.1 e.2) a

/-- DefaultMergeStrategy.merge (src/merge/default.ts): the shallow
override spread of the restored state over the initial state. -/
def defaultMerge (initialState restoredState : List (String × JSVal)) :
    List (String × JSVal) :=
  spreadPair initialState restoredState

/-- valtio deepClone (an external collaborator) returns a structurally
equal fresh copy; at the value level of this embedding it is the
identity. -/
def deepClone (v : JSVal) : JSVal := v

/-- DeepMergeStrategy.isSpecialType together with getTypeMarker
(deepMerge.ts lines 21 to 36): the recognized marker of a serialized
special type envelope, if the value is one. -/
def markerOf : JSVal → Option String
  | .obj fs =>
      match lookupField fs "__type" with
      | some (.str t) => if typeMarkers.contains t then some t else none
      | _ => none
  | _ => none

/-- DeepMergeStrategy.isSpecialType (deepMerge.ts lines 21 to 31). -/
def isSpecialType (v : JSVal) : Bool :=
  (markerOf v).isSome

/-- Own enumerable string keyed properties of an object typed value, as
seen by object spread and by a hasOwnProperty filtered for..in loop: the
fields of a plain object or class instance, the indexed elements of an
array, and nothing on Map, Set, Date, Error, WeakMap, WeakSet or DOM
element instances. -/
def ownFields : JSVal → List (String × JSVal)
  | .obj fs => fs
  | .classInst _ fs => fs
  | .arr es => (es.enum.map fun e => (toString e.1, e.2))
  | _ => []

/-- Map.set insertion: an existing key (SameValueZero) keeps its position
and receives the new value, a new key is appended. -/
def mapSet (k v : JSVal) : List (JSVal × JSVal) → List (JSVal × JSVal)
  | [] => [(k, v)]
  | (k0, v0) :: rest =>
      if beqPrim k0 k then (k0, v) :: rest else (k0, v0) :: mapSet k v rest

/-- Entries of a Map built from an entry list: inserted in order with
Map.set semantics. -/
def mapFromEntries (es : List (JSVal × JSVal)) : List (JSVal × JSVal) :=
  es.foldl (fun acc e => mapSet e.1 e.2 acc) []

/-- Set.add insertion: an element already present (SameValueZero) is kept
once at its first position. -/
def setAdd (x : JSVal) (l : List JSVal) : List JSVal :=
  if memPrim x l then l else l ++ [x]

/-- Elements of a Set built from an element list, in insertion order. -/
def setFromElems (es : List JSVal) : List JSVal :=
  es.foldl (fun acc x => setAdd x acc) []

/-- The merged className of two class envelopes
(deepMerge.ts line 147): the source className if truthy, else the target
className, undefined when both are absent or falsy. -/
def classNameMerge (sfs tfs : List (String × JSVal)) : JSVal :=
  let s := (lookupField sfs "className").getD .undef
  if truthyVal s then s else (lookupField tfs "className").getD .undef

mutual
/-- DeepMergeStrategy.deepMerge (deepMerge.ts lines 38 to 179).  A non
object (or null) source wins outright; a non object target is replaced by
a clone of the source; an array source replaces the target wholesale; a
source envelope with a recognized marker merges by the type specific rule
when the target is an envelope of the same marker and otherwise wins as a
clone; otherwise the result starts from a shallow copy of the target and
every own enumerable key of the source is recursively merged in. -/
def deepMerge (target source : JSVal) : JSVal :=
  if !isObjectType source then source
  else if !isObjectType target then deepClone source
  else
    match source with
    | .arr es =>
        match target with
        | .arr _ => .arr es
        | _ => deepClone (.arr es)
    | .obj sfs =>
        match lookupField sfs "__type" with
        | some (.str t) =>
            if typeMarkers.contains t then
              if isSpecialType target && markerOf target = some t then
                specialSameMerge t (ownFields target) sfs
              else deepClone (.obj sfs)
            else .obj (mergeOwnKeys (ownFields target) (ownFields target) sfs)
        | _ => .obj (mergeOwnKeys (ownFields target) (ownFields target) sfs)
    | .date _ => .obj (ownFields target)
    | .jsmap _ => .obj (ownFields target)
    | .jsset _ => .obj (ownFields target)
    | .jserror _ _ _ => .obj (ownFields target)
    | .weakmap => .obj (ownFields target)
    | .weakset => .obj (ownFields target)
    | .domElement _ _ _ => .obj (ownFields target)
    | .classInst _ fs => .obj (mergeOwnKeys (ownFields target) (ownFields target) fs)
    | s => s
termination_by (sizeOf source, 3)

/-- The plain object branch of deepMerge (deepMerge.ts lines 164 to 178):
starting from the shallow copy acc of the target fields, each own key of
the source is assigned the recursive merge of the target value at that key
(undefined when absent) with the source value. -/
def mergeOwnKeys (tfs acc : List (String × JSVal)) :
    List (String × JSVal) → List (String × JSVal)
  | [] => acc
  | (k, sv) :: rest =>
      mergeOwnKeys tfs
        (setField acc k (deepMerge ((lookupField tfs k).getD .undef) sv)) rest
termination_by l => (sizeOf l, 2)

/-- The switch on the shared marker of two envelopes
(deepMerge.ts lines 69 to 157).  Maps merge to the union of their entries
with source entries overriding on key collision, Sets to the union of
their members, Errors to a shallow field merge source over target, Class
envelopes to a recursive merge of their value payloads keeping the source
className when truthy; Date, Symbol, Function and DOM element envelopes
are taken from the source wholesale, as is any envelope whose guard fails
(the switch breaks fall through to the final clone of the source). -/
def specialSameMerge (t : String) (tfs sfs : List (String × JSVal)) : JSVal :=
  if t = "__MAP__" then
    match lookupField sfs "value", lookupField tfs "value" with
    | some (.arr sv), some (.arr tv) =>
        match entryPairs tv, entryPairs sv with
        | some tps, some sps =>
            .obj [("__type", .str "__MAP__"),
                  ("value", .arr
                    ((mapFromEntries (mapFromEntries tps ++ mapFromEntries sps)).map
                      fun e => .arr [e.1, e.2]))]
        | _, _ => .null
    | _, _ => deepClone (.obj sfs)
  else if t = "__SET__" then
    match lookupField sfs "value", lookupField tfs "value" with
    | some (.arr sv), some (.arr tv) =>
        .obj [("__type", .str "__SET__"),
              ("value", .arr (setFromElems (tv ++ sv)))]
    | _, _ => deepClone (.obj sfs)
  else if t = "__ERROR__" then
    match lookupField sfs "value", lookupField tfs "value" with
    | some sv, some tv =>
        if isObjectType sv && isObjectType tv then
          .obj [("__type", .str "__ERROR__"),
                ("value", .obj (spreadPair (ownFields tv) (ownFields sv)))]
        else deepClone (.obj sfs)
    | _, _ => deepClone (.obj sfs)
  else if t = "__CLASS__" then
    match lookupField sfs "value", lookupField tfs "value" with
    | some sv, some tv =>
        if isObjectType sv && isObjectType tv then
          .obj [("__type", .str "__CLASS__"),
                ("className", classNameMerge sfs tfs),
                ("value", classValueMerge tv sfs)]
        else deepClone (.obj sfs)
    | _, _ => deepClone (.obj sfs)
  else deepClone (.obj sfs)
termination_by (sizeOf sfs, 2)

/-- The recursive merge of the two Class payloads
(deepMerge.ts line 149): walks the source envelope fields to its value
entry and deep merges the target payload with it; the traversal finds the
same entry as the lookup guarding the call. -/
def classValueMerge (tv : JSVal) : List (String × JSVal) → JSVal
  | [] => .null
  | (k, sv) :: rest =>
      if k = "value" then deepMerge tv sv else classValueMerge tv rest
termination_by l => (sizeOf l, 1)
end

/-! ### Store update helpers (src/utils.ts, src/index.ts) -/

/-- updateStore (src/utils.ts lines 62 to 66): for every own enumerable
key of newState, assign its value onto the store in place. -/
def updateStore (store newState : List (String × JSVal)) :
    List (String × JSVal) :=
  newState.foldl (fun s e => setField s e.1 e.2) store

/-- Object.assign(store, mergedState) as used by restore
(src/index.ts line 166): every own enumerable key of the source is
assigned onto the target in place. -/
def objAssign (store mergedState : List (String × JSVal)) :
    List (String × JSVal) :=
  mergedState.foldl (fun s e => setField s e.1 e.2) store

/-! ### Railway error handling and the persist queue
(src/utils.ts lines 1 to 25, src/queue.ts) -/

/-- The result shape of attempt (src/utils.ts): data with a null error on
success, a null data with the error on failure. -/
structure AttemptResult where
  data : Option Unit
  error : Option String
deriving Repr, DecidableEq

/-- attempt (src/utils.ts lines 16 to 25): awaits a promise, returning its
value with error null, or catching a rejection into the error field.  A
promise outcome is modelled as an Except value, error meaning rejection. -/
def attempt : Except String Unit → AttemptResult
  | .ok _ => ⟨some (), none⟩
  | .error e => ⟨none, some e⟩

/-- State of a PersistQueue (src/queue.ts lines 5 to 50).  Jobs are
identified by numbers.  queue is the pending job list (the source replaces
it wholesale with a singleton on every timer fire), inProgress the flag
set while an operation is awaited, inFlight the jobs currently executing
against the backend (the operation between its start and its settling),
and completed the settled jobs in order. -/
structure QState where
  queue : List Nat
  inProgress : Bool
  inFlight : List Nat
  completed : List Nat
deriving Repr, DecidableEq

/-- The initial queue state. -/
def qInit : QState := ⟨[], false, [], []⟩

/-- processQueue (src/queue.ts lines 36 to 49) up to its first suspension:
returns early if an operation is in progress or the queue is empty;
otherwise sets the in progress flag, shifts the first job off the queue
and starts awaiting it (the job becomes in flight). -/
def processQueue (s : QState) : QState :=
  if s.inProgress then s
  else
    match s.queue with
    | [] => s
    | j :: rest =>
        { s with inProgress := true, queue := rest, inFlight := s.inFlight ++ [j] }

/-- An event of the queue: the debounce timer of add firing with job j, or
the in flight operation settling. -/
inductive QEvent where
  | fire (j : Nat)
  | complete
deriving Repr, DecidableEq

/-- One event step of the queue.  On a timer fire (src/queue.ts lines 26
to 33) the snapshot is taken, the queue is replaced with just the latest
job and processQueue runs.  On settling of the in flight operation
(lines 42 to 48) its error, if any, was captured by attempt and only
logged; the job is recorded as completed, the in progress flag is cleared
and processQueue runs again, draining any queued job at once. -/
def queueStep (s : QState) : QEvent → QState
  | .fire j => processQueue { s with queue := [j] }
  | .complete =>
      match s.inFlight with
      | [] => s
      | j :: rest =>
          processQueue
            { s with inFlight := rest, completed := s.completed ++ [j],
                     inProgress := false }

/-- The queue state after a sequence of events from the initial state. -/
def runQueue (evs : List QEvent) : QState :=
  evs.foldl queueStep qInit

/-! ### The debounce combinator and the timing of writes
(debounce, src/utils.ts lines 30 to 59; its use in src/index.ts
lines 142 to 154) -/

/-- Fire times of a debounced function called at the given ascending
times: each call clears any pending timer and schedules the function
debounceTime later, so a scheduled run survives exactly when no further
call happens strictly before its deadline. -/
def fireTimes (ms : Nat) : List Nat → List Nat
  | [] => []
  | [t] => [t + ms]
  | t1 :: t2 :: rest =>
      if t2 < t1 + ms then fireTimes ms (t2 :: rest)
      else (t1 + ms) :: fireTimes ms (t2 :: rest)

/-- The store contents at time t, given the initial contents and the
timed mutation list (applied in list order): the value of the last
mutation not after t. -/
def stateAt {α : Type} (init : α) (muts : List (Nat × α)) (t : Nat) : α :=
  muts.foldl (fun acc m => if m.1 ≤ t then m.2 else acc) init

/-- The backend writes produced by the debounced persist subscription:
persistData runs at each debounce fire time and serializes the snapshot
taken at that moment (src/index.ts lines 122 to 139 and 142 to 154).
Each write is the pair of its time and the snapshot it serializes. -/
def debouncedWrites {α : Type} (ms : Nat) (init : α) (muts : List (Nat × α)) :
    List (Nat × α) :=
  (fireTimes ms (muts.map Prod.fst)).map fun t => (t, stateAt init muts t)

/-! ### Orchestrator operations (src/index.ts) -/

/-- Outcome of the promise returned by a manual persist call, persistData
(src/index.ts lines 122 to 139), as a function of the gate verdict, the
presence of a synchronous write path and the outcome of the asynchronous
storage set.  When the gate rejects, persistData returns a resolved
promise without writing; when the storage exposes syncSet, the write is
synchronous and a resolved promise is returned; otherwise persistData
returns the promise of storage.set itself, rejection included. -/
def persistDataResult (gatePasses : Bool) (hasSyncSet : Bool)
    (setOutcome : Except String Unit) : Except String Unit :=
  if !gatePasses then .ok ()
  else if hasSyncSet then .ok ()
  else setOutcome

/-- The backend contents visible under one key, as handed to restore by
storage.get: none when no record exists. -/
abbrev StoredRecord := Option String

/-- restore (src/index.ts lines 161 to 170), parameterized like the source
by the configured deserialization and merge strategies.  It awaits
storage.get(key); when the result is truthy (a non null, non empty
string), it deserializes it, merges it with the original caller supplied
initial state, applies the merged result onto the live state with
Object.assign and returns true; otherwise it returns false and the live
state is untouched.  The result is the new live state and the returned
boolean. -/
def restoreOp (deserializeF : String → List (String × JSVal))
    (mergeF : List (String × JSVal) → List (String × JSVal) → List (String × JSVal))
    (initialState live : List (String × JSVal)) (stored : StoredRecord) :
    List (String × JSVal) × Bool :=
  match stored with
  | some s =>
      if s = "" then (live, false)
      else (objAssign live (mergeF initialState (deserializeF s)), true)
  | none => (live, false)

/-- A storage backend as a list of key and record pairs. -/
def backendGet (b : List (String × String)) (key : String) : StoredRecord :=
  match b with
  | [] => none
  | (k, v) :: rest => if k = key then some v else backendGet rest key

/-- clear (src/index.ts line 160): storage.remove(key) deletes the record
under the key. -/
def clearOp (b : List (String × String)) (key : String) :
    List (String × String) :=
  match b with
  | [] => []
  | (k, v) :: rest => if k = key then clearOp rest key else (k, v) :: clearOp rest key

/-- The subscription callback run on every mutation (src/index.ts
lines 145 to 154) folded over a mutation sequence: for each new current
snapshot, the gate is evaluated against the previous snapshot; on pass the
debounced persist is triggered for that transition; the previous snapshot
then advances to the current one unconditionally.  Returns the final
previous snapshot and the list of snapshots whose transitions triggered a
persist. -/
def runMutations {α : Type} (gate : α → α → Bool) (prev : α) :
    List α → α × List α
  | [] => (prev, [])
  | cur :: rest =>
      let later := runMutations gate cur rest
      (later.1, (if gate prev cur then [cur] else []) ++ later.2)

/-! ### Storage adapter error policy (src/storage/*)
Each adapter method is modelled as a function of the outcome of the
underlying native call, Except.error meaning a thrown or rejected native
operation. -/

/-- AsyncStorageStrategy.has (src/storage/asyncStorage.ts): returns
whether getItem produced a non null value; any error is caught, logged and
converted to false. -/
def asyncStorageHas (nativeGetItem : Except String (Option String)) :
    Except String Bool :=
  match nativeGetItem with
  | .ok v => .ok (v ≠ none)
  | .error _ => .ok false

/-- AsyncStorageStrategy.get: returns the getItem value; any error is
caught, logged and converted to null. -/
def asyncStorageGet (nativeGetItem : Except String (Option String)) :
    Except String (Option String) :=
  match nativeGetItem with
  | .ok v => .ok v
  | .error _ => .ok none

/-- AsyncStorageStrategy.set: awaits setItem; any error is caught, logged
and swallowed. -/
def asyncStorageSet (nativeSetItem : Except String Unit) :
    Except String Unit :=
  match nativeSetItem with
  | .ok _ => .ok ()
  | .error _ => .ok ()

/-- AsyncStorageStrategy.remove: awaits removeItem; any error is caught,
logged and swallowed. -/
def asyncStorageRemove (nativeRemoveItem : Except String Unit) :
    Except String Unit :=
  match nativeRemoveItem with
  | .ok _ => .ok ()
  | .error _ => .ok ()

/-- LocalStorageStrategy.has (src/unnamed/part_004 lines 30 to 64): no
try and catch; a throwing localStorage.getItem propagates. -/
def localStorageHas (nativeGetItem : Except String (Option String)) :
    Except String Bool :=
  nativeGetItem.map (fun v => v ≠ none)

/-- LocalStorageStrategy.get: forwards localStorage.getItem unguarded. -/
def localStorageGet (nativeGetItem : Except String (Option String)) :
    Except String (Option String) :=
  nativeGetItem

/-- LocalStorageStrategy.set: forwards localStorage.setItem unguarded; a
thrown quota error rejects the returned promise. -/
def localStorageSet (nativeSetItem : Except String Unit) :
    Except String Unit :=
  nativeSetItem

/-- LocalStorageStrategy.remove: forwards localStorage.removeItem
unguarded. -/
def localStorageRemove (nativeRemoveItem : Except String Unit) :
    Except String Unit :=
  nativeRemoveItem

/-! ### Helper lemmas on property lookup and assignment -/

theorem setField_lookup_same (fs : List (String × JSVal)) (k : String)
    (v : JSVal) : lookupField (setField fs k v) k = some v := by
  induction fs with
  | nil => simp [setField, lookupField]
  | cons hd tl ih =>
    obtain ⟨k0, v0⟩ := hd
    by_cases h : k0 = k
    · subst h
      simp [setField, lookupField]
    · simp [setField, lookupField, h, ih]

theorem setField_lookup_other (fs : List (String × JSVal)) (k k2 : String)
    (v : JSVal) (h : k ≠ k2) :
    lookupField (setField fs k v) k2 = lookupField fs k2 := by
  induction fs with
  | nil => simp [setField, lookupField, h]
  | cons hd tl ih =>
    obtain ⟨k0, v0⟩ := hd
    by_cases h0 : k0 = k
    · subst h0
      simp [setField, lookupField, h]
    · simp [setField, lookupField, h0, ih]

theorem assignFold_lookup_absent (l : List (String × JSVal))
    (acc : List (String × JSVal)) (k : String)
    (h : lookupField l k = none) :
    lookupField (l.foldl (fun s e => setField s e.1 e.2) acc) k =
      lookupField acc k := by
  induction l generalizing acc with
  | nil => simp
  | cons hd tl ih =>
    obtain ⟨k0, v0⟩ := hd
    simp only [lookupField] at h
    by_cases h0 : k0 = k
    · simp [h0] at h
    · simp only [List.foldl_cons]
      rw [ih _ (by simpa [h0] using h), setField_lookup_other _ _ _ _ h0]

theorem assignFold_lookup_present (l : List (String × JSVal))
    (acc : List (String × JSVal)) (k : String) (v : JSVal)
    (hnd : (l.map Prod.fst).Nodup) (h : lookupField l k = some v) :
    lookupField (l.foldl (fun s e => setField s e.1 e.2) acc) k = some v := by
  induction l generalizing acc with
  | nil => simp [lookupField] at h
  | cons hd tl ih =>
    obtain ⟨k0, v0⟩ := hd
    simp only [List.map_cons, List.nodup_cons] at hnd
    simp only [lookupField] at h
    by_cases h0 : k0 = k
    · subst h0
      rw [if_pos rfl] at h
      injection h with hv
      subst hv
      have habs : lookupField tl k0 = none := by
        clear ih
        induction tl with
        | nil => rfl
        | cons hd2 tl2 ih2 =>
          obtain ⟨k2, v2⟩ := hd2
          simp only [List.map_cons, List.mem_cons, List.nodup_cons, not_or] at hnd
          have hne : k2 ≠ k0 := fun hc => hnd.1.1 hc.symm
          simp only [lookupField, if_neg hne]
          exact ih2 ⟨hnd.1.2, hnd.2.2⟩
      simp only [List.foldl_cons]
      rw [assignFold_lookup_absent _ _ _ habs, setField_lookup_same]
    · simp only [if_neg h0] at h
      simp only [List.foldl_cons]
      exact ih _ hnd.2 h

theorem lookupField_all_ne (fs : List (String × JSVal)) (k : String)
    (h : ∀ e ∈ fs, e.1 ≠ k) : lookupField fs k = none := by
  induction fs with
  | nil => rfl
  | cons hd tl ih =>
    obtain ⟨k0, v0⟩ := hd
    have hk0 : k0 ≠ k := h (k0, v0) (by simp)
    simp only [lookupField, if_neg hk0]
    exact ih fun e he => h e (List.mem_cons_of_mem _ he)

theorem lookupField_eq_none_of_not_mem (l : List (String × JSVal))
    (k : String) (h : k ∉ l.map Prod.fst) : lookupField l k = none := by
  apply lookupField_all_ne
  intro e he hc
  exact h (hc ▸ List.mem_map_of_mem Prod.fst he)

/-! ### Helper lemmas on the deep merge plain object branch -/

theorem mergeOwnKeys_lookup_absent (tfs acc l : List (String × JSVal))
    (k : String) (h : lookupField l k = none) :
    lookupField (mergeOwnKeys tfs acc l) k = lookupField acc k := by
  induction l generalizing acc with
  | nil => simp [mergeOwnKeys]
  | cons hd tl ih =>
    obtain ⟨k0, sv⟩ := hd
    simp only [lookupField] at h
    by_cases h0 : k0 = k
    · simp [h0] at h
    · simp only [mergeOwnKeys]
      rw [ih _ (by simpa [h0] using h), setField_lookup_other _ _ _ _ h0]

theorem mergeOwnKeys_lookup_present (tfs acc l : List (String × JSVal))
    (k : String) (sv : JSVal) (hnd : (l.map Prod.fst).Nodup)
    (h : lookupField l k = some sv) :
    lookupField (mergeOwnKeys tfs acc l) k =
      some (deepMerge ((lookupField tfs k).getD .undef) sv) := by
  induction l generalizing acc with
  | nil => simp [lookupField] at h
  | cons hd tl ih =>
    obtain ⟨k0, sv0⟩ := hd
    simp only [List.map_cons, List.nodup_cons] at hnd
    simp only [lookupField] at h
    by_cases h0 : k0 = k
    · subst h0
      rw [if_pos rfl] at h
      injection h with hv
      subst hv
      have habs : lookupField tl k0 = none :=
        lookupField_eq_none_of_not_mem _ _ hnd.1
      simp only [mergeOwnKeys]
      rw [mergeOwnKeys_lookup_absent _ _ _ _ habs, setField_lookup_same]
    · simp only [if_neg h0] at h
      simp only [mergeOwnKeys]
      exact ih _ hnd.2 h

/-! ### Helper lemmas on the JSON round trip -/

theorem jsonStringifyParse_prim (v : JSVal) (h : isPrimitive v = true) :
    jsonStringifyParse v = some v := by
  cases v <;> first | rfl | simp [isPrimitive] at h

theorem jsonStringifyParseList_all_prim (l : List JSVal)
    (h : l.all isPrimitive = true) : jsonStringifyParseList l = l := by
  induction l with
  | nil => rfl
  | cons hd tl ih =>
    simp only [List.all_cons, Bool.and_eq_true] at h
    simp only [jsonStringifyParseList, jsonStringifyParse_prim hd h.1,
      Option.getD_some]
    rw [ih h.2]

theorem jsonStringifyParseList_entries (es : List (JSVal × JSVal))
    (h : es.all (fun e => isPrimitive e.1 && isPrimitive e.2) = true) :
    jsonStringifyParseList (es.map fun e => .arr [e.1, e.2]) =
      es.map fun e => .arr [e.1, e.2] := by
  induction es with
  | nil => rfl
  | cons hd tl ih =>
    simp only [List.all_cons, Bool.and_eq_true] at h
    simp only [List.map_cons, jsonStringifyParseList, jsonStringifyParse,
      jsonStringifyParse_prim _ h.1.1, jsonStringifyParse_prim _ h.1.2,
      Option.getD_some, ih h.2]

theorem entryPairs_map (es : List (JSVal × JSVal)) :
    entryPairs (es.map fun e => .arr [e.1, e.2]) = some es := by
  induction es with
  | nil => rfl
  | cons hd tl ih =>
    simp only [List.map_cons, entryPairs, ih]
    rfl

theorem processForDeserializationList_all_prim (l : List JSVal)
    (h : l.all isPrimitive = true) : processForDeserializationList l = l := by
  induction l with
  | nil => rfl
  | cons hd tl ih =>
    simp only [List.all_cons, Bool.and_eq_true] at h
    simp only [processForDeserializationList]
    rw [ih h.2]
    have : processForDeserialization hd = hd := by
      cases hd <;> first | rfl | simp [isPrimitive] at h
    rw [this]

theorem faithfulFields_lookup_type_none (fs : List (String × JSVal))
    (h : faithfulFields fs = true) :
    lookupField (jsonStringifyParseFields (processForSerializationFields fs))
      "__type" = none := by
  induction fs with
  | nil => rfl
  | cons hd tl ih =>
    obtain ⟨k, v⟩ := hd
    simp only [faithfulFields, Bool.and_eq_true, bne_iff_ne, ne_eq] at h
    simp only [processForSerializationFields, jsonStringifyParseFields]
    cases hv : jsonStringifyParse (processForSerialization v) with
    | none => exact ih h.2
    | some w =>
      simp only [lookupField, if_neg h.1.1]
      exact ih h.2

theorem JSVal_sizeOf_pos (v : JSVal) : 0 < sizeOf v := by
  cases v <;> simp_arith

theorem roundTrip_faithful_aux :
    ∀ (n : Nat) (v : JSVal), sizeOf v ≤ n → faithful v = true →
      ∃ w, jsonStringifyParse (processForSerialization v) = some w ∧
        processForDeserialization w = lossyImage v := by
  intro n
  induction n with
  | zero =>
    intro v hv
    have := JSVal_sizeOf_pos v
    omega
  | succ n ih =>
    intro v hv hf
    cases v with
    | str s => exact ⟨_, rfl, rfl⟩
    | num m => exact ⟨_, rfl, rfl⟩
    | bool b => exact ⟨_, rfl, rfl⟩
    | null => exact ⟨_, rfl, rfl⟩
    | undef => simp [faithful] at hf
    | date iso => exact ⟨_, rfl, rfl⟩
    | symbol d => cases d <;> exact ⟨_, rfl, rfl⟩
    | func fname => exact ⟨_, rfl, rfl⟩
    | jserror m nm st => exact ⟨_, rfl, rfl⟩
    | weakmap => exact ⟨_, rfl, rfl⟩
    | weakset => exact ⟨_, rfl, rfl⟩
    | classInst c fs => simp [faithful] at hf
    | domElement a b c => simp [faithful] at hf
    | jsmap entries =>
      simp only [faithful, Bool.and_eq_true] at hf
      refine ⟨.obj [("__type", .str "__MAP__"),
                    ("value", .arr (entries.map fun e => .arr [e.1, e.2]))],
              ?_, ?_⟩
      · simp only [processForSerialization, jsonStringifyParse,
          jsonStringifyParseFields, jsonStringifyParseList_entries entries hf.1]
      · simp [processForDeserialization, lookupField, processEnvelope,
          entryPairs_map entries, lossyImage]
    | jsset elems =>
      simp only [faithful, Bool.and_eq_true] at hf
      refine ⟨.obj [("__type", .str "__SET__"), ("value", .arr elems)], ?_, ?_⟩
      · simp only [processForSerialization, jsonStringifyParse,
          jsonStringifyParseFields, jsonStringifyParseList_all_prim elems hf.1]
      · simp [processForDeserialization, lookupField, processEnvelope,
          lossyImage]
    | arr es =>
      cases es with
      | nil => exact ⟨_, rfl, rfl⟩
      | cons hd tl =>
        simp only [faithful, faithfulList, Bool.and_eq_true] at hf
        have hhd : sizeOf hd ≤ n := by
          simp at hv
          omega
        have htl : sizeOf (JSVal.arr tl) ≤ n := by
          have := JSVal_sizeOf_pos hd
          simp at hv ⊢
          omega
        obtain ⟨w1, hw1, hw1d⟩ := ih hd hhd hf.1
        obtain ⟨w2, hw2, hw2d⟩ := ih (JSVal.arr tl) htl (by
          simp only [faithful]
          exact hf.2)
        simp only [processForSerialization, jsonStringifyParse,
          Option.some.injEq] at hw2
        rw [← hw2] at hw2d
        simp only [processForDeserialization, lossyImage, JSVal.arr.injEq] at hw2d
        refine ⟨.arr (w1 :: jsonStringifyParseList (processForSerializationList tl)),
                ?_, ?_⟩
        · simp only [processForSerialization, processForSerializationList,
            jsonStringifyParse, jsonStringifyParseList, hw1, Option.getD_some]
        · simp only [processForDeserialization, processForDeserializationList,
            lossyImage, lossyImageList, hw1d, hw2d]
    | obj fs =>
      cases fs with
      | nil => exact ⟨_, rfl, rfl⟩
      | cons hd tl =>
        obtain ⟨k, v0⟩ := hd
        simp only [faithful, faithfulFields, Bool.and_eq_true, bne_iff_ne,
          ne_eq] at hf
        have hhd : sizeOf v0 ≤ n := by
          simp at hv
          omega
        have htl : sizeOf (JSVal.obj tl) ≤ n := by
          have := JSVal_sizeOf_pos v0
          simp at hv ⊢
          omega
        obtain ⟨w1, hw1, hw1d⟩ := ih v0 hhd hf.1.2
        obtain ⟨w2, hw2, hw2d⟩ := ih (JSVal.obj tl) htl (by
          simp only [faithful]
          exact hf.2)
        simp only [processForSerialization, jsonStringifyParse,
          Option.some.injEq] at hw2
        rw [← hw2] at hw2d
        have htype := faithfulFields_lookup_type_none tl hf.2
        simp only [processForDeserialization, htype, lossyImage,
          JSVal.obj.injEq] at hw2d
        refine ⟨.obj ((k, w1) ::
                  jsonStringifyParseFields (processForSerializationFields tl)),
                ?_, ?_⟩
        · simp only [processForSerialization, processForSerializationFields,
            jsonStringifyParse, jsonStringifyParseFields, hw1]
        · have hlk : lookupField
              ((k, w1) ::
                jsonStringifyParseFields (processForSerializationFields tl))
              "__type" = none := by
            simp only [lookupField, if_neg hf.1.1]
            exact htype
          simp only [processForDeserialization, hlk, lossyImage,
            processForDeserializationFields, lossyImageFields, hw1d, hw2d]

/-! ### Helper lemmas on the debounce timing model -/

theorem fireTimes_burst (ms : Nat) :
    ∀ (t : Nat) (ts : List Nat),
      List.Chain' (fun a b => b < a + ms) (t :: ts) →
      fireTimes ms (t :: ts) = [ts.getLastD t + ms] := by
  intro t ts
  induction ts generalizing t with
  | nil => intro _; rfl
  | cons t2 rest ih =>
    intro hch
    rw [List.chain'_cons] at hch
    simp only [fireTimes, if_pos hch.1]
    rw [ih t2 hch.2, List.getLastD_cons]

theorem getLastD_map_fst {α : Type} :
    ∀ (l : List (Nat × α)) (d : Nat × α),
      (l.map Prod.fst).getLastD d.1 = (l.getLastD d).1 := by
  intro l
  induction l with
  | nil => intro d; rfl
  | cons hd tl ih =>
    intro d
    simp only [List.map_cons, List.getLastD_cons]
    exact ih hd

theorem stateAt_last {α : Type} :
    ∀ (muts : List (Nat × α)) (init : α) (first : Nat × α) (T : Nat),
      (∀ p ∈ first :: muts, p.1 ≤ T) →
      stateAt init (first :: muts) T = (muts.getLastD first).2 := by
  intro muts
  induction muts with
  | nil =>
    intro init first T h
    have h1 : first.1 ≤ T := h first (by simp)
    simp [stateAt, h1]
  | cons snd rest ih =>
    intro init first T h
    have h1 : first.1 ≤ T := h first (by simp)
    have hstep : stateAt init (first :: snd :: rest) T =
        stateAt first.2 (snd :: rest) T := by
      simp [stateAt, h1]
    rw [hstep, ih first.2 snd T (fun p hp => h p (List.mem_cons_of_mem _ hp)),
      List.getLastD_cons]

theorem chain_le_last {α : Type} (ms : Nat) :
    ∀ (rest : List (Nat × α)) (first : Nat × α),
      List.Chain' (fun a b => a.1 < b.1 ∧ b.1 < a.1 + ms) (first :: rest) →
      ∀ p ∈ first :: rest, p.1 ≤ (rest.getLastD first).1 := by
  intro rest
  induction rest with
  | nil =>
    intro first _ p hp
    simp at hp
    simp [hp]
  | cons snd tail ih =>
    intro first hch p hp
    rw [List.chain'_cons] at hch
    have htail := ih snd hch.2
    rw [List.getLastD_cons]
    rcases List.mem_cons.mp hp with h1 | h2
    · subst h1
      have h2nd : snd.1 ≤ (tail.getLastD snd).1 := htail snd (by simp)
      omega
    · exact htail p h2

/-! ### Helper lemmas on the persist queue -/

theorem queueStep_preserves (s : QState)
    (h1 : s.inFlight.length ≤ 1)
    (h2 : s.inProgress = false → s.inFlight = []) (e : QEvent) :
    (queueStep s e).inFlight.length ≤ 1 ∧
      ((queueStep s e).inProgress = false → (queueStep s e).inFlight = []) := by
  cases e with
  | fire j =>
    simp only [queueStep, processQueue]
    cases hp : s.inProgress with
    | true => exact ⟨h1, by simp⟩
    | false =>
      have hemp : s.inFlight = [] := h2 hp
      simp [hemp]
  | complete =>
    simp only [queueStep]
    cases hf : s.inFlight with
    | nil => exact ⟨by simp [hf] at h1 ⊢, fun hp => by simp [hf]⟩
    | cons j restf =>
      have hrest : restf = [] := by
        rw [hf] at h1
        simp only [List.length_cons] at h1
        exact List.length_eq_zero.mp (by omega)
      subst hrest
      simp only [processQueue]
      cases hq : s.queue with
      | nil => simp
      | cons q qs => simp

theorem queue_inv_run (evs : List QEvent) :
    ∀ (s : QState), s.inFlight.length ≤ 1 →
      (s.inProgress = false → s.inFlight = []) →
      (evs.foldl queueStep s).inFlight.length ≤ 1 := by
  induction evs with
  | nil => intro s h1 _; exact h1
  | cons e rest ih =>
    intro s h1 h2
    have := queueStep_preserves s h1 h2 e
    exact ih _ this.1 this.2

theorem deepMerge_plain_of_not_special (tfs sfs : List (String × JSVal))
    (hsp : isSpecialType (.obj sfs) = false) :
    deepMerge (.obj tfs) (.obj sfs) = .obj (mergeOwnKeys tfs tfs sfs) := by
  cases hlk : lookupField sfs "__type" with
  | none => simp [deepMerge, isObjectType, ownFields, hlk]
  | some tv =>
    cases tv <;>
      first
        | (simp [deepMerge, isObjectType, ownFields, hlk]
           done)
        | (rename_i t
           have hcont : t ∉ typeMarkers := by
             simpa [isSpecialType, markerOf, hlk] using hsp
           simp [deepMerge, isObjectType, ownFields, hlk, hcont])

/-! ## The claims -/

/-- C1, counterexample.  The claim states that deserialize after serialize
is structurally equivalent to the input for every supported shape, the
only lossy cases being Functions, DOM elements and WeakMap or WeakSet.  A
Map is a supported shape and a Date is a supported shape, yet a Map
holding a Date value round trips to a Map holding the ISO string: the
serializer emits Map entries raw, without recursive processing, so the raw
Date is flattened by the JSON text encoding and the deserializer leaves
the entries untouched.  A string is not structurally equivalent to a
Date. -/
theorem claim1_counterexample :
    roundTrip (.jsmap [(.str "a", .date "2020-01-01T00:00:00.000Z")]) =
      some (.jsmap [(.str "a", .str "2020-01-01T00:00:00.000Z")]) ∧
    lossyImage (.jsmap [(.str "a", .date "2020-01-01T00:00:00.000Z")]) =
      .jsmap [(.str "a", .date "2020-01-01T00:00:00.000Z")] ∧
    JSVal.str "2020-01-01T00:00:00.000Z" ≠
      JSVal.date "2020-01-01T00:00:00.000Z" :=
  ⟨rfl, rfl, fun h => nomatch h⟩

/-- C1, amended.  On the faithful fragment, primitives except undefined,
Dates, Symbols, Errors, Maps and Sets with distinct primitive entries, and
arrays and plain objects thereof whose keys avoid __type, the round trip
of the default JSON strategy returns exactly the documented lossy image of
the input: Functions come back as the inert no-op function, WeakMap and
WeakSet as null, and everything else unchanged.  Outside the fragment the
law fails: Map and Set entries and class instance fields are serialized
raw (claim1_counterexample), a class instance comes back as a plain
object, and undefined valued object fields are dropped by the JSON text
encoding. -/
theorem claim1_roundTrip_amended (v : JSVal) (h : faithful v = true) :
    roundTrip v = some (lossyImage v) := by
  obtain ⟨w, hw, hwd⟩ := roundTrip_faithful_aux (sizeOf v) v le_rfl h
  unfold roundTrip
  rw [hw]
  simp [hwd]

/-- C1, witness: a state tree exercising every faithful shape at once. -/
theorem claim1_roundTrip_amended_witness :
    faithful (.obj
      [("d", .date "2020-01-01T00:00:00.000Z"),
       ("m", .jsmap [(.str "k", .num 1), (.num 2, .bool true)]),
       ("s", .jsset [.num 1, .str "x"]),
       ("sym", .symbol (some "tag")),
       ("f", .func "callback"),
       ("e", .jserror "boom" "Error" "trace"),
       ("w", .weakmap),
       ("list", .arr [.num 1, .null, .obj [("nested", .str "y")]])]) = true ∧
    roundTrip (.obj
      [("d", .date "2020-01-01T00:00:00.000Z"),
       ("m", .jsmap [(.str "k", .num 1), (.num 2, .bool true)]),
       ("s", .jsset [.num 1, .str "x"]),
       ("sym", .symbol (some "tag")),
       ("f", .func "callback"),
       ("e", .jserror "boom" "Error" "trace"),
       ("w", .weakmap),
       ("list", .arr [.num 1, .null, .obj [("nested", .str "y")]])]) =
    some (lossyImage (.obj
      [("d", .date "2020-01-01T00:00:00.000Z"),
       ("m", .jsmap [(.str "k", .num 1), (.num 2, .bool true)]),
       ("s", .jsset [.num 1, .str "x"]),
       ("sym", .symbol (some "tag")),
       ("f", .func "callback"),
       ("e", .jserror "boom" "Error" "trace"),
       ("w", .weakmap),
       ("list", .arr [.num 1, .null, .obj [("nested", .str "y")]])])) :=
  ⟨rfl, claim1_roundTrip_amended _ rfl⟩

/-- C2, counterexample.  The claim states that a manual persist call
resolves even when the backend set rejects.  In persistData the
asynchronous path returns the promise of storage.set directly, so with a
passing gate, no syncSet and a rejecting set, the promise handed to the
caller is the rejected one. -/
theorem claim2_counterexample :
    persistDataResult true false (Except.error "backend write failed") ≠
      Except.ok () :=
  fun h => nomatch h

/-- C2, amended.  A rejecting backend set surfaces to the caller of a
manual persist call: persistData forwards the promise of storage.set
without catching (first conjunct).  The error swallowing the spec
describes exists elsewhere: attempt captures a rejection into a result
value (second conjunct) and PersistQueue.processQueue uses it, but the
orchestrator never routes persistData through the queue.  A manual persist
still resolves when the gate rejects the transition (third conjunct) or
when the adapter itself catches internally, as AsyncStorage does (fourth
conjunct). -/
theorem claim2_persist_rejection_amended :
    (∀ e : String,
      persistDataResult true false (Except.error e) = Except.error e) ∧
    (∀ e : String, attempt (Except.error e) = ⟨none, some e⟩) ∧
    (∀ outcome : Except String Unit,
      persistDataResult false false outcome = Except.ok ()) ∧
    (∀ e : String, asyncStorageSet (Except.error e) = Except.ok ()) :=
  ⟨fun _ => rfl, fun _ => rfl, fun _ => rfl, fun _ => rfl⟩

/-- C3.  For a burst of mutations in which each mutation follows the
previous one strictly within the debounce window, the debounced persist
produces exactly one write; it happens exactly debounceTime after the last
mutation of the burst and serializes the snapshot taken at that moment,
which carries the value of the last mutation. -/
theorem claim3_debounce_coalescing {α : Type} (ms : Nat) (init : α)
    (first : Nat × α) (rest : List (Nat × α))
    (hchain : List.Chain'
      (fun a b => a.1 < b.1 ∧ b.1 < a.1 + ms) (first :: rest)) :
    debouncedWrites ms init (first :: rest) =
      [((rest.getLastD first).1 + ms, (rest.getLastD first).2)] := by
  have hle := chain_le_last ms rest first hchain
  have hstate : stateAt init (first :: rest) ((rest.getLastD first).1 + ms) =
      (rest.getLastD first).2 :=
    stateAt_last rest init first _
      (fun p hp => le_trans (hle p hp) (Nat.le_add_right _ _))
  have hch2 : List.Chain' (fun a b => b < a + ms)
      (first.1 :: rest.map Prod.fst) := by
    have hlift : List.Chain' (fun a b : Nat × α => b.1 < a.1 + ms)
        (first :: rest) :=
      List.Chain'.imp (fun a b h => h.2) hchain
    have hmap : List.Chain' (fun a b : Nat => b < a + ms)
        ((first :: rest).map Prod.fst) :=
      (List.chain'_map Prod.fst).mpr hlift
    simpa using hmap
  unfold debouncedWrites
  simp only [List.map_cons]
  rw [fireTimes_burst ms first.1 (rest.map Prod.fst) hch2,
    getLastD_map_fst rest first]
  simp only [List.map_cons, List.map_nil, hstate]

/-- C3, witness: the scenario of the spec, debounceTime 500 and mutations
at 0, 10 and 20 milliseconds writing once at 520 with the last value. -/
theorem claim3_debounce_coalescing_witness :
    List.Chain' (fun a b => a.1 < b.1 ∧ b.1 < a.1 + 500)
      [((0 : Nat), (1 : Nat)), (10, 2), (20, 3)] ∧
    debouncedWrites 500 (0 : Nat) [(0, 1), (10, 2), (20, 3)] = [(520, 3)] :=
  ⟨by simp [List.chain'_cons],
   by
    have h := claim3_debounce_coalescing 500 0 (0, 1) [(10, 2), (20, 3)]
      (by simp [List.chain'_cons])
    exact h⟩

/-- C4.  First conjunct: in every run of the queue from its initial state,
at most one operation is in flight against the backend.  Second conjunct:
a timer fire while a write is in progress only replaces the queued job;
nothing starts, nothing is dropped, the in flight write is untouched.
Third conjunct: when the in flight write settles while a job is queued,
that job starts within the same settling step, with no further debounce
wait. -/
theorem claim4_queue_single_flight :
    (∀ evs : List QEvent, (runQueue evs).inFlight.length ≤ 1) ∧
    (∀ (s : QState) (j : Nat), s.inProgress = true →
      queueStep s (.fire j) = { s with queue := [j] }) ∧
    (∀ (s : QState) (j0 j : Nat), s.inProgress = true → s.inFlight = [j0] →
      s.queue = [j] →
      queueStep s .complete =
        { queue := [], inProgress := true, inFlight := [j],
          completed := s.completed ++ [j0] }) := by
  refine ⟨?_, ?_, ?_⟩
  · intro evs
    exact queue_inv_run evs qInit (by simp [qInit]) (by simp [qInit])
  · intro s j hp
    simp [queueStep, processQueue, hp]
  · intro s j0 j hp hf hq
    simp [queueStep, processQueue, hf, hq]

/-- C4, witness: job 2 fired while job 1 is in flight waits in the queue
and starts as soon as job 1 settles. -/
theorem claim4_queue_single_flight_witness :
    (QState.mk [] true [1] []).inProgress = true ∧
    queueStep (QState.mk [] true [1] []) (.fire 2) = QState.mk [2] true [1] [] ∧
    queueStep (QState.mk [2] true [1] []) .complete =
      QState.mk [] true [2] [1] ∧
    (runQueue [.fire 1, .fire 2, .complete]).inFlight.length ≤ 1 :=
  ⟨rfl,
   claim4_queue_single_flight.2.1 (QState.mk [] true [1] []) 2 rfl,
   claim4_queue_single_flight.2.2 (QState.mk [2] true [1] []) 1 2 rfl rfl rfl,
   claim4_queue_single_flight.1 [.fire 1, .fire 2, .complete]⟩

/-- C5, counterexample.  The claim states that restore reads the backend
value, deserializes it, merges and applies it and returns true whenever
the backend holds a record.  A backend holding the empty string for the
key is a record, yet restore returns false and leaves the live state
untouched: the source guards with the truthiness of the fetched string and
the empty string is falsy. -/
theorem claim5_counterexample :
    backendGet [("k", "")] "k" = some "" ∧
    restoreOp (fun _ => [("count", .num 9)]) defaultMerge
      [("count", .num 0)] [("count", .num 5)] (backendGet [("k", "")] "k") =
      ([("count", .num 5)], false) :=
  ⟨rfl, rfl⟩

/-- C5, amended.  When the backend holds a nonempty record, restore
deserializes it, merges it with the original caller supplied initial state
(not with the live state, which only receives the assignment), applies the
merged result onto the live state in place with Object.assign and returns
true.  When the backend holds no record, or holds the empty string, it
returns false and leaves the live state unchanged; after clear the backend
holds no record, so a subsequent restore does exactly that. -/
theorem claim5_restore_amended
    (deserializeF : String → List (String × JSVal))
    (mergeF : List (String × JSVal) → List (String × JSVal) →
      List (String × JSVal))
    (initialState live : List (String × JSVal))
    (b : List (String × String)) (key : String) :
    (∀ s : String, backendGet b key = some s → s ≠ "" →
      restoreOp deserializeF mergeF initialState live (backendGet b key) =
        (objAssign live (mergeF initialState (deserializeF s)), true)) ∧
    (backendGet b key = none →
      restoreOp deserializeF mergeF initialState live (backendGet b key) =
        (live, false)) ∧
    backendGet (clearOp b key) key = none := by
  refine ⟨?_, ?_, ?_⟩
  · intro s hs hne
    rw [hs]
    simp [restoreOp, hne]
  · intro hnone
    rw [hnone]
    rfl
  · induction b with
    | nil => rfl
    | cons hd tl ih =>
      obtain ⟨k0, v0⟩ := hd
      by_cases h : k0 = key
      · simp [clearOp, h, ih]
      · simp [clearOp, backendGet, h, ih]

/-- C5, witness: a nonempty record restores and returns true; after clear
the record is gone. -/
theorem claim5_restore_amended_witness :
    backendGet [("k", "stored-state")] "k" = some "stored-state" ∧
    ("stored-state" ≠ "") ∧
    restoreOp (fun _ => [("count", .num 5)]) defaultMerge
      [("count", .num 0)] [("count", .num 7)]
      (backendGet [("k", "stored-state")] "k") =
      ([("count", .num 5)], true) ∧
    backendGet (clearOp [("k", "stored-state")] "k") "k" = none := by
  refine ⟨rfl, by decide, ?_, ?_⟩
  · exact (claim5_restore_amended (fun _ => [("count", .num 5)]) defaultMerge
      [("count", .num 0)] [("count", .num 7)] [("k", "stored-state")] "k").1
      "stored-state" rfl (by decide)
  · exact (claim5_restore_amended (fun _ => [("count", .num 5)]) defaultMerge
      [("count", .num 0)] [("count", .num 7)] [("k", "stored-state")] "k").2.2

/-- C6.  Folding the subscription callback over any mutation sequence, the
persist triggers are exactly the gate passing transitions among the
consecutive state pairs: a transition on which the gate returns false
contributes no trigger, and the previous snapshot seen by each gate
evaluation is always the immediately preceding state, because it advances
unconditionally after every mutation; the final previous snapshot is the
last mutation. -/
theorem claim6_gate_advance {α : Type} (gate : α → α → Bool) (p0 : α)
    (ms : List α) :
    (runMutations gate p0 ms).2 =
      (((p0 :: ms).zip ms).filter fun pr => gate pr.1 pr.2).map Prod.snd ∧
    (runMutations gate p0 ms).1 = ms.getLastD p0 := by
  induction ms generalizing p0 with
  | nil => exact ⟨rfl, rfl⟩
  | cons cur rest ih =>
    obtain ⟨ih1, ih2⟩ := ih cur
    constructor
    · by_cases hg : gate p0 cur <;>
        simp [runMutations, List.zip_cons_cons, hg, ih1]
    · have hfst : (runMutations gate p0 (cur :: rest)).1 =
          (runMutations gate cur rest).1 := rfl
      rw [hfst, ih2, List.getLastD_cons]

/-- C7.  First conjunct: the example of the spec, where the nested object
is merged key by key rather than replaced.  Second conjunct: on a non
special source object, deepMerge takes the plain branch, starting from a
shallow copy of the target and merging every own key of the source in.
Third and fourth conjuncts: a key absent from the source keeps the target
binding, and a source key receives the recursive merge of the target value
at that key with the source value. -/
theorem claim7_deep_merge :
    deepMerge (.obj [("x", .obj [("a", .num 1), ("b", .num 2)])])
        (.obj [("x", .obj [("b", .num 3)])]) =
      .obj [("x", .obj [("a", .num 1), ("b", .num 3)])] ∧
    (∀ tfs sfs : List (String × JSVal), isSpecialType (.obj sfs) = false →
      deepMerge (.obj tfs) (.obj sfs) = .obj (mergeOwnKeys tfs tfs sfs)) ∧
    (∀ (tfs sfs : List (String × JSVal)) (k : String),
      lookupField sfs k = none →
      lookupField (mergeOwnKeys tfs tfs sfs) k = lookupField tfs k) ∧
    (∀ (tfs sfs : List (String × JSVal)) (k : String) (sv : JSVal),
      (sfs.map Prod.fst).Nodup → lookupField sfs k = some sv →
      lookupField (mergeOwnKeys tfs tfs sfs) k =
        some (deepMerge ((lookupField tfs k).getD .undef) sv)) := by
  refine ⟨?_, ?_, ?_, ?_⟩
  · simp [deepMerge, mergeOwnKeys, lookupField, setField, isObjectType,
      typeMarkers, ownFields]
  · exact deepMerge_plain_of_not_special
  · intro tfs sfs k h
    exact mergeOwnKeys_lookup_absent tfs tfs sfs k h
  · intro tfs sfs k sv hnd h
    exact mergeOwnKeys_lookup_present tfs tfs sfs k sv hnd h

/-- C7, witness at the example of the spec. -/
theorem claim7_deep_merge_witness :
    isSpecialType (.obj [("x", JSVal.obj [("b", JSVal.num 3)])]) = false ∧
    deepMerge (.obj [("x", .obj [("a", .num 1), ("b", .num 2)])])
        (.obj [("x", .obj [("b", .num 3)])]) =
      .obj (mergeOwnKeys [("x", .obj [("a", .num 1), ("b", .num 2)])]
        [("x", .obj [("a", .num 1), ("b", .num 2)])]
        [("x", .obj [("b", .num 3)])]) ∧
    lookupField [("x", JSVal.obj [("b", JSVal.num 3)])] "y" = none ∧
    lookupField (mergeOwnKeys [("x", .obj [("a", .num 1), ("b", .num 2)])]
        [("x", .obj [("a", .num 1), ("b", .num 2)])]
        [("x", .obj [("b", .num 3)])]) "y" =
      lookupField [("x", .obj [("a", .num 1), ("b", .num 2)])] "y" ∧
    lookupField (mergeOwnKeys [("x", .obj [("a", .num 1), ("b", .num 2)])]
        [("x", .obj [("a", .num 1), ("b", .num 2)])]
        [("x", .obj [("b", .num 3)])]) "x" =
      some (deepMerge (.obj [("a", .num 1), ("b", .num 2)])
        (.obj [("b", .num 3)])) :=
  ⟨rfl,
   claim7_deep_merge.2.1 _ _ rfl,
   rfl,
   claim7_deep_merge.2.2.1 _ _ "y" rfl,
   claim7_deep_merge.2.2.2 _ _ "x" _ (by decide) rfl⟩

/-- C8, counterexample.  The claim states that every adapter catches
internal backend errors and converts them to absent results.  The local
storage adapter wraps no call in a try block: a quota exceeded error
thrown by the native setItem propagates out of set instead of becoming a
silent no-op. -/
theorem claim8_counterexample :
    localStorageSet (Except.error "QuotaExceededError") =
      Except.error "QuotaExceededError" ∧
    localStorageSet (Except.error "QuotaExceededError") ≠ Except.ok () :=
  ⟨rfl, fun h => nomatch h⟩

/-- C8, amended.  The adapters over external native modules catch every
internal error and convert it to the absent result, AsyncStorage shown
here for all four operations; but the web storage adapters forward native
exceptions unguarded, so the policy does not hold for every adapter. -/
theorem claim8_adapter_errors_amended :
    (∀ e : String, asyncStorageHas (Except.error e) = Except.ok false) ∧
    (∀ e : String, asyncStorageGet (Except.error e) = Except.ok none) ∧
    (∀ e : String, asyncStorageSet (Except.error e) = Except.ok ()) ∧
    (∀ e : String, asyncStorageRemove (Except.error e) = Except.ok ()) ∧
    (∀ e : String, localStorageGet (Except.error e) = Except.error e) ∧
    (∀ e : String, localStorageSet (Except.error e) = Except.error e) ∧
    (∀ e : String, localStorageRemove (Except.error e) = Except.error e) :=
  ⟨fun _ => rfl, fun _ => rfl, fun _ => rfl, fun _ => rfl,
   fun _ => rfl, fun _ => rfl, fun _ => rfl⟩

/-- C9.  An envelope whose __type is a string outside the recognized
markers is not a special type for the deep merge strategy, which merges it
key by key exactly like a plain object; deserialization of such an
envelope returns its raw value field, undefined when absent; and a
malformed recognized envelope, shown for a Date whose value is not a
string, falls back to null. -/
theorem claim9_unrecognized_envelope (t : String)
    (fs tfs : List (String × JSVal))
    (ht : lookupField fs "__type" = some (.str t))
    (hm : typeMarkers.contains t = false) :
    isSpecialType (.obj fs) = false ∧
    deepMerge (.obj tfs) (.obj fs) = .obj (mergeOwnKeys tfs tfs fs) ∧
    processForDeserialization (.obj fs) =
      (lookupField fs "value").getD .undef ∧
    (∀ gs : List (String × JSVal),
      lookupField gs "__type" = some (.str "__DATE__") →
      (∀ s : String, lookupField gs "value" ≠ some (.str s)) →
      processForDeserialization (.obj gs) = .null) := by
  have hneq : ∀ m : String, typeMarkers.contains m = true → t ≠ m := by
    intro m hmC hc
    subst hc
    rw [hmC] at hm
    exact nomatch hm
  have h1 : t ≠ "__DATE__" := hneq _ (by decide)
  have h2 : t ≠ "__MAP__" := hneq _ (by decide)
  have h3 : t ≠ "__SET__" := hneq _ (by decide)
  have h4 : t ≠ "__SYMBOL__" := hneq _ (by decide)
  have h5 : t ≠ "__FUNCTION__" := hneq _ (by decide)
  have h6 : t ≠ "__CLASS__" := hneq _ (by decide)
  have h7 : t ≠ "__ERROR__" := hneq _ (by decide)
  have h8 : t ≠ "__DOM_ELEMENT__" := hneq _ (by decide)
  have hmem : t ∉ typeMarkers := by
    cases hc : typeMarkers.contains t with
    | false => simpa using hc
    | true => rw [hc] at hm; exact nomatch hm
  refine ⟨?_, ?_, ?_, ?_⟩
  · simp [isSpecialType, markerOf, ht, hmem]
  · simp [deepMerge, isObjectType, ownFields, ht, hmem]
  · simp [processForDeserialization, processEnvelope, ht, h1, h2, h3, h4,
      h5, h6, h7, h8]
  · intro gs hgs hval
    cases hv : lookupField gs "value" with
    | none => simp [processForDeserialization, processEnvelope, hgs, hv]
    | some v =>
      cases v <;>
        first
          | (simp [processForDeserialization, processEnvelope, hgs, hv,
               isObjectType]
             done)
          | exact absurd hv (hval _)

/-- C9, witness: a custom tagged envelope deserializes to its raw value
and merges like a plain object; a Date envelope with a numeric value
deserializes to null. -/
theorem claim9_unrecognized_envelope_witness :
    lookupField [("__type", JSVal.str "custom"), ("value", JSVal.num 7)]
      "__type" = some (.str "custom") ∧
    typeMarkers.contains "custom" = false ∧
    processForDeserialization
      (.obj [("__type", .str "custom"), ("value", .num 7)]) = .num 7 ∧
    deepMerge (.obj [("a", .num 1)])
        (.obj [("__type", .str "custom"), ("value", .num 7)]) =
      .obj (mergeOwnKeys [("a", .num 1)] [("a", .num 1)]
        [("__type", .str "custom"), ("value", .num 7)]) ∧
    processForDeserialization
      (.obj [("__type", .str "__DATE__"), ("value", .num 5)]) = .null := by
  have h := claim9_unrecognized_envelope "custom"
    [("__type", .str "custom"), ("value", .num 7)] [("a", .num 1)]
    rfl (by decide)
  exact ⟨rfl, by decide, h.2.2.1, h.2.1,
    h.2.2.2 [("__type", .str "__DATE__"), ("value", .num 5)] rfl
      (fun s hc => nomatch hc)⟩

/-- C10.  updateStore assigns onto the live store exactly the own
enumerable keys of the merged state: every key of the new state ends up
with its new value, and every other property of the store keeps its prior
value.  The in place nature of the loop, one property write per key on the
same object, is what the model expresses by transforming the store field
list rather than replacing it. -/
theorem claim10_updateStore_frame (store newState : List (String × JSVal))
    (hnd : (newState.map Prod.fst).Nodup) :
    (∀ (k : String) (v : JSVal), lookupField newState k = some v →
      lookupField (updateStore store newState) k = some v) ∧
    (∀ k : String, lookupField newState k = none →
      lookupField (updateStore store newState) k = lookupField store k) :=
  ⟨fun k v h => assignFold_lookup_present newState store k v hnd h,
   fun k h => assignFold_lookup_absent newState store k h⟩

/-- C10, witness. -/
theorem claim10_updateStore_frame_witness :
    (([("b", JSVal.num 9), ("c", JSVal.num 3)].map Prod.fst).Nodup) ∧
    lookupField [("b", JSVal.num 9), ("c", JSVal.num 3)] "b" =
      some (.num 9) ∧
    lookupField (updateStore [("a", .num 1), ("b", .num 2)]
      [("b", .num 9), ("c", .num 3)]) "b" = some (.num 9) ∧
    lookupField [("b", JSVal.num 9), ("c", JSVal.num 3)] "a" = none ∧
    lookupField (updateStore [("a", .num 1), ("b", .num 2)]
      [("b", .num 9), ("c", .num 3)]) "a" =
      lookupField [("a", JSVal.num 1), ("b", JSVal.num 2)] "a" :=
  ⟨by decide, rfl,
   (claim10_updateStore_frame [("a", .num 1), ("b", .num 2)]
     [("b", .num 9), ("c", .num 3)] (by decide)).1 "b" (.num 9) rfl,
   rfl,
   (claim10_updateStore_frame [("a", .num 1), ("b", .num 2)]
     [("b", .num 9), ("c", .num 3)] (by decide)).2 "a" rfl⟩

end ValtioPersist
